import Mathlib

/-!
Verification of the xport library (SAS XPORT/XPT v5 reader, `xport.py`).

The development shallowly embeds the two core components:

* the IBM hexadecimal float <-> IEEE binary64 codec
  (`ibm_to_ieee`, `ieee_to_ibm`),
* the observation stream loop (`reader._read_observations`) and the
  namestr record parser (`reader._read_namestr_record`).

IEEE binary64 values are represented by their 64-bit big-endian bit
patterns as natural numbers; byte strings by lists of naturals (< 256).
Python `int` arithmetic is modelled by `Nat`/`Int` arithmetic with the
same bitwise operators; Python `divmod` (floor division) on the positive
divisor 4 coincides with Euclidean division, so `Int.ediv`/`Int.emod`
are used.
-/

deriving instance DecidableEq for Except

namespace Xport

/-- Error kinds surfaced by the reader and the codec.  The Python source
raises `ValueError` / `NotImplementedError` / `ArithmeticError` subclasses
with distinguishing messages; each distinct raise site gets a constructor.
`fuelExhausted` is an artifact of the fuel-indexed observation loop and is
unreachable from `readObservations` (which always supplies enough fuel). -/
inductive XErr where
  | invalidMissingValue
  | overflow
  | underflow
  | infinityUnsupported
  | incompleteRecord
  | insufficientPadding
  | multipleMembersUnsupported
  | incorrectPadding
  | unsupportedNumericWidth
  | unicodeDecodeError
  | structError
  | assertionError
  | fuelExhausted
  deriving DecidableEq, Repr

/-- `struct.unpack('>Q', bs)`: big-endian interpretation of a byte string. -/
def bytesToNat (bs : List Nat) : Nat :=
  bs.foldl (fun a b => a * 256 + b) 0

/-- `struct.pack('>Q', n)`: the eight big-endian bytes of a 64-bit value. -/
def u64ToBytes (n : Nat) : List Nat :=
  [n / 2 ^ 56 % 256, n / 2 ^ 48 % 256, n / 2 ^ 40 % 256, n / 2 ^ 32 % 256,
   n / 2 ^ 24 % 256, n / 2 ^ 16 % 256, n / 2 ^ 8 % 256, n % 256]

/-- `ibm.ljust(8, b'\x00')`: right-pad with zero bytes to length 8. -/
def ljust8 (bs : List Nat) : List Nat :=
  bs ++ List.replicate (8 - bs.length) 0

/-- Result of `ibm_to_ieee`: either a finite IEEE binary64 bit pattern
(`+0.0` is the pattern 0) or `float('nan')`. -/
inductive IEEEResult where
  | val (bits : Nat)
  | nan
  deriving DecidableEq, Repr

/-- The byte string `b'_.ABCDEFGHIJKLMNOPQRSTUVWXYZ'` of accepted SAS
missing-value marker bytes (xport.py line 72). -/
def missingValueBytes : List Nat :=
  [95, 46, 65, 66, 67, 68, 69, 70, 71, 72, 73, 74, 75, 76, 77,
   78, 79, 80, 81, 82, 83, 84, 85, 86, 87, 88, 89, 90]

/-- `ibm_to_ieee` (xport.py lines 49-108): translate an IBM-format float,
given as 2 to 8 raw bytes, to an IEEE binary64 bit pattern.
`.error .structError` models the `struct.error` that `unpack('>Q', ...)`
raises when the padded input is not exactly 8 bytes long. -/
def ibm_to_ieee (ibm0 : List Nat) : Except XErr IEEEResult :=
  let ibm := ljust8 ibm0
  if ibm.length ≠ 8 then .error .structError else
  let ulong := bytesToNat ibm
  let sign := ulong &&& 0x8000000000000000
  let exponent := (ulong &&& 0x7f00000000000000) >>> 56
  let mantissa := ulong &&& 0x00ffffffffffffff
  if mantissa = 0 then
    if ibm.headD 0 = 0 then .ok (.val 0)
    else if ibm.headD 0 ∈ missingValueBytes then .ok .nan
    else .error .invalidMissingValue
  else
    let shift : Nat :=
      if ulong &&& 0x0080000000000000 ≠ 0 then 3
      else if ulong &&& 0x0040000000000000 ≠ 0 then 2
      else if ulong &&& 0x0020000000000000 ≠ 0 then 1
      else 0
    let mantissa := mantissa >>> shift
    let mantissa := mantissa &&& 0xffefffffffffffff
    -- exponent: `(exponent - 65) << 2` then `+= shift + 1023`;
    -- the intermediate value may be negative, the final value never is.
    let exponent : Int := ((exponent : Int) - 65) * 4 + shift + 1023
    .ok (.val (sign ||| (exponent.toNat <<< 52) ||| mantissa))

/-- Biased exponent field (bits 52-62) of an IEEE binary64 bit pattern. -/
def ieeeExpBits (u : Nat) : Nat := u / 2 ^ 52 % 2 ^ 11

/-- Fraction field (bits 0-51) of an IEEE binary64 bit pattern. -/
def ieeeFrac (u : Nat) : Nat := u % 2 ^ 52

/-- `ieee == 0.0`: a float compares equal to 0.0 exactly on the two
zero patterns (exponent and fraction fields both zero). -/
def ieeeIsZero (u : Nat) : Prop := ieeeExpBits u = 0 ∧ ieeeFrac u = 0

/-- `math.isnan`: exponent field all ones, fraction nonzero. -/
def ieeeIsNaN (u : Nat) : Prop := ieeeExpBits u = 2047 ∧ ieeeFrac u ≠ 0

/-- `math.isinf`: exponent field all ones, fraction zero. -/
def ieeeIsInf (u : Nat) : Prop := ieeeExpBits u = 2047 ∧ ieeeFrac u = 0

instance : DecidablePred ieeeIsZero := fun u => by unfold ieeeIsZero; infer_instance
instance : DecidablePred ieeeIsNaN := fun u => by unfold ieeeIsNaN; infer_instance
instance : DecidablePred ieeeIsInf := fun u => by unfold ieeeIsInf; infer_instance

/-- `ieee_to_ibm` (xport.py lines 425-480): translate an IEEE binary64
bit pattern to the 8 IBM-format bytes. -/
def ieee_to_ibm (u : Nat) : Except XErr (List Nat) :=
  if ieeeIsZero u then .ok (List.replicate 8 0)
  else if ieeeIsNaN u then .ok (0x5F :: List.replicate 7 0)
  else if ieeeIsInf u then .error .infinityUnsupported
  else
    let sign := (u &&& (1 <<< 63)) >>> 63
    let exponent : Int := (((u &&& (0x7ff <<< 52)) >>> 52 : Nat) : Int) - 1023
    let mantissa := u &&& 0x000fffffffffffff
    if 248 < exponent then .error .overflow
    else if exponent < -260 then .error .underflow
    else
      let mantissa := 0x0010000000000000 ||| mantissa
      -- `quotient, remainder = divmod(exponent, 4)` (floor division;
      -- the divisor is positive so this is Euclidean division)
      let quotient := exponent.ediv 4
      let remainder := exponent.emod 4
      let exponent := quotient
      let mantissa := mantissa <<< remainder.toNat
      let exponent := exponent + 1
      let exponent := exponent + 64
      .ok (u64ToBytes ((sign <<< 63) ||| (exponent.toNat <<< 56) ||| mantissa))

/-- The real value denoted by a finite IEEE binary64 bit pattern, as a
rational: `(-1)^sign * 2^(e-1023) * (1 + f/2^52)` for normal patterns and
`(-1)^sign * 2^(-1022) * (f/2^52)` for subnormal ones. -/
def ieeeVal (u : Nat) : ℚ :=
  let s : ℚ := if u / 2 ^ 63 % 2 = 1 then -1 else 1
  if ieeeExpBits u = 0 then
    s * (ieeeFrac u : ℚ) / 2 ^ 1074
  else
    s * ((2 ^ 52 + ieeeFrac u : ℚ) * 2 ^ ieeeExpBits u) / 2 ^ 1075

/-! ### Observation stream (`reader._read_observations`) -/

/-- One variable descriptor (the `Variable` namedtuple, xport.py line 36).
Integer fields keep Python's signed-integer semantics (`struct` formats
`h` and `l` are signed). -/
structure Variable where
  name : List Nat
  numeric : Bool
  position : Int
  size : Int
  deriving DecidableEq, Repr

/-- A decoded field value: an IEEE float for numeric fields, a
right-trimmed ISO-8859-1 string (code points = bytes) for character
fields. -/
inductive Value where
  | num (r : IEEEResult)
  | chr (s : List Nat)
  deriving DecidableEq, Repr

/-- The ASCII whitespace bytes stripped by Python's `rstrip()`. -/
def pyWhitespace : List Nat := [32, 9, 10, 13, 11, 12]

/-- `raw.rstrip()`: drop trailing ASCII whitespace bytes. -/
def rstripBytes (bs : List Nat) : List Nat :=
  (bs.reverse.dropWhile (pyWhitespace.contains ·)).reverse

/-- `_parse_field` (xport.py lines 112-115): numeric fields go through the
codec, character fields are right-trimmed and decoded as ISO-8859-1. -/
def parseField (raw : List Nat) (v : Variable) : Except XErr Value :=
  if v.numeric then (ibm_to_ieee raw).map .num
  else .ok (.chr (rstripBytes raw))

/-- One observation row (xport.py lines 346-347): slice each variable's
chunk out of the row block and parse it. -/
def parseRow (vars : List Variable) (block : List Nat) : Except XErr (List Value) :=
  vars.mapM (fun v => parseField ((block.drop v.position.toNat).take v.size.toNat) v)

/-- Parse a list of row blocks in order, stopping at the first error --
the per-row effect of the loop body (xport.py lines 344-347). -/
def parseRows (vars : List Variable) : List (List Nat) → Except XErr (List (List Value))
  | [] => .ok []
  | r :: rs => (parseRow vars r).bind (fun v => (parseRows vars rs).map (fun out => v :: out))

/-- `set(a) == set(b)` on byte strings. -/
def pySetEq (a b : List Nat) : Bool :=
  a.all (b.contains ·) && b.all (a.contains ·)

/-- `blocksize = sum(v.size for v in variables)` (xport.py line 323).
The claims under consideration only involve positive block sizes, so the
Python `int` total is taken as a natural number. -/
def blocksize (vars : List Variable) : Nat :=
  (List.sum (vars.map Variable.size)).toNat

/-- The loop body of `reader._read_observations` (xport.py lines 327-347),
indexed by fuel; `count` is the number of rows already emitted, `input`
the remaining bytes of the stream.  `padding = b' '`; the sentinel is
`padding * blocksize`.  The fuel branch is unreachable from
`readObservations`, which always supplies more fuel than iterations. -/
def obsLoop (vars : List Variable) : Nat → Nat → List Nat → Except XErr (List (List Value))
  | 0, _, _ => .error .fuelExhausted
  | fuel + 1, count, input =>
    let B := blocksize vars
    let block := input.take B
    if block.length < B then
      if ¬ pySetEq block [32] then .error .incompleteRecord
      else
        let remainder := count * B % 80
        if remainder ≠ 0 ∧ block.length ≠ 80 - remainder then .error .insufficientPadding
        else .ok []
    else if block = List.replicate B 32 then
      let rest := input.drop B
      if ¬ pySetEq rest [32] then .error .multipleMembersUnsupported
      else if B + rest.length ≠ 80 - count * B % 80 then .error .incorrectPadding
      else .ok []
    else
      match parseRow vars block with
      | .error e => .error e
      | .ok row => (obsLoop vars fuel (count + 1) (input.drop B)).map (row :: ·)

/-- `reader._read_observations` applied to the whole remaining stream:
run the loop with enough fuel that it can never run out (each iteration
either terminates or consumes at least one input byte). -/
def readObservations (vars : List Variable) (input : List Nat) :
    Except XErr (List (List Value)) :=
  obsLoop vars (input.length + 1) 0 input

/-! ### Namestr records (`reader._read_namestr_record`) -/

/-- Big-endian signed 16-bit integer (struct format `h`). -/
def int16be (hi lo : Nat) : Int :=
  let v := hi * 256 + lo
  if v < 32768 then (v : Int) else (v : Int) - 65536

/-- Big-endian signed 32-bit integer (struct format `l`). -/
def int32be (b0 b1 b2 b3 : Nat) : Int :=
  let v := ((b0 * 256 + b1) * 256 + b2) * 256 + b3
  if v < 2 ^ 31 then (v : Int) else (v : Int) - 2 ^ 32

/-- `reader._read_namestr_record` (xport.py lines 275-296): parse one
140- or 136-byte namestr record.  `assertionError` models the
`assert size == 136` failure for other sizes; `structError` a
wrong-length record; `unicodeDecodeError` models `name.decode('ascii')`
raising on a non-ASCII name byte (which `reader.__init__` surfaces as a
`TypeError`).  The format is `>hhhh8s40s8shhh2s8shhl52s` (or `...48s`),
so the type is at offset 0, the field length at offset 4, the name at
offsets 8-15 and the position (`tokens[-2]`) at offset 84. -/
def parseNamestrRecord (size : Nat) (raw : List Nat) : Except XErr Variable :=
  if size ≠ 140 ∧ size ≠ 136 then .error .assertionError
  else if raw.length ≠ size then .error .structError
  else
    let isNumericInt := int16be (raw.getD 0 0) (raw.getD 1 0)
    let length := int16be (raw.getD 4 0) (raw.getD 5 0)
    let name := (raw.drop 8).take 8
    let position := int32be (raw.getD 84 0) (raw.getD 85 0) (raw.getD 86 0) (raw.getD 87 0)
    if name.any (fun b => 128 ≤ b) then .error .unicodeDecodeError
    else
      let isNumeric := isNumericInt == 1
      if isNumeric ∧ (length < 2 ∨ 8 < length) then .error .unsupportedNumericWidth
      else .ok ⟨rstripBytes name, isNumeric, position, length⟩

/-! ### Bit-level bridge lemmas -/

theorem or_mul_pow (a b n : Nat) (hb : b < 2 ^ n) : (2 ^ n * a) ||| b = 2 ^ n * a + b := by
  apply Nat.eq_of_testBit_eq
  intro j
  rw [Nat.testBit_or, Nat.testBit_mul_pow_two_add a hb, Nat.testBit_mul_pow_two]
  by_cases hj : j < n
  · simp [hj, Nat.not_le_of_lt hj]
  · have hbj : b < 2 ^ j :=
      lt_of_lt_of_le hb (Nat.pow_le_pow_right (by norm_num) (Nat.le_of_not_lt hj))
    simp [hj, Nat.le_of_not_lt hj, Nat.testBit_lt_two_pow hbj]

theorem and_mid_mask (u k n : Nat) :
    u &&& ((2 ^ k - 1) * 2 ^ n) = u / 2 ^ n % 2 ^ k * 2 ^ n := by
  have h : u &&& ((2 ^ k - 1) <<< n) = (u >>> n % 2 ^ k) <<< n := by
    apply Nat.eq_of_testBit_eq
    intro j
    simp only [Nat.testBit_and, Nat.testBit_shiftLeft, Nat.testBit_mod_two_pow,
      Nat.testBit_shiftRight, Nat.testBit_two_pow_sub_one]
    by_cases hj : n ≤ j
    · have h1 : n + (j - n) = j := by omega
      simp only [hj, decide_True, Bool.true_and, h1]
      cases u.testBit j <;> cases (decide (j - n < k)) <;> simp
    · simp [hj]
  rwa [Nat.shiftLeft_eq, Nat.shiftLeft_eq, Nat.shiftRight_eq_div_pow] at h

/-- Clearing bit 52 of a value with bit 52 as its top set bit, as done by
`mantissa &= 0xffefffffffffffff` after normalization. -/
theorem and_clear_bit52 (f : Nat) (hf : f < 2 ^ 52) :
    (2 ^ 52 + f) &&& 0xffefffffffffffff = f := by
  apply Nat.eq_of_testBit_eq
  intro j
  rw [Nat.testBit_and]
  have hmask : (0xffefffffffffffff : Nat) = 2 ^ 53 * (2 ^ 11 - 1) + (2 ^ 52 - 1) := by norm_num
  have hsum : (2 ^ 52 + f : Nat) = 2 ^ 52 * 1 + f := by ring
  rw [hmask, hsum, Nat.testBit_mul_pow_two_add 1 hf,
    Nat.testBit_mul_pow_two_add (2 ^ 11 - 1) (show (2:Nat) ^ 52 - 1 < 2 ^ 53 by norm_num),
    Nat.testBit_two_pow_sub_one, Nat.testBit_two_pow_sub_one]
  rcases Nat.lt_trichotomy j 52 with h | h | h
  · simp [h, show j < 53 by omega]
  · subst h
    have : f.testBit 52 = false := Nat.testBit_lt_two_pow hf
    simp [this]
  · have h1 : f.testBit j = false :=
      Nat.testBit_lt_two_pow (lt_of_lt_of_le hf (Nat.pow_le_pow_right (by norm_num) (by omega)))
    have h2 : Nat.testBit 1 (j - 52) = false := by
      have : (1:Nat) < 2 ^ (j - 52) := by
        calc (1:Nat) < 2 ^ 1 := by norm_num
        _ ≤ 2 ^ (j - 52) := Nat.pow_le_pow_right (by norm_num) (by omega)
      exact Nat.testBit_lt_two_pow this
    simp [show ¬ j < 52 by omega, show ¬ j < 53 by omega, h1, h2]

theorem and_mask63 (u : Nat) : u &&& 0x8000000000000000 = u / 2 ^ 63 % 2 * 2 ^ 63 := by
  have h := and_mid_mask u 1 63
  norm_num at h
  convert h using 2

theorem and_mask7f56 (u : Nat) : u &&& 0x7f00000000000000 = u / 2 ^ 56 % 2 ^ 7 * 2 ^ 56 := by
  have h := and_mid_mask u 7 56
  norm_num at h
  convert h using 2

theorem and_mask56 (u : Nat) : u &&& 0x00ffffffffffffff = u % 2 ^ 56 := by
  have h := Nat.and_pow_two_sub_one_eq_mod u 56
  norm_num at h
  convert h using 2

theorem and_mask52 (u : Nat) : u &&& 0x000fffffffffffff = u % 2 ^ 52 := by
  have h := Nat.and_pow_two_sub_one_eq_mod u 52
  norm_num at h
  convert h using 2

theorem and_bit55 (u : Nat) : u &&& 0x0080000000000000 = u / 2 ^ 55 % 2 * 2 ^ 55 := by
  have h := and_mid_mask u 1 55
  norm_num at h
  convert h using 2

theorem and_bit54 (u : Nat) : u &&& 0x0040000000000000 = u / 2 ^ 54 % 2 * 2 ^ 54 := by
  have h := and_mid_mask u 1 54
  norm_num at h
  convert h using 2

theorem and_bit53 (u : Nat) : u &&& 0x0020000000000000 = u / 2 ^ 53 % 2 * 2 ^ 53 := by
  have h := and_mid_mask u 1 53
  norm_num at h
  convert h using 2

theorem and_bit63sl (u : Nat) : u &&& (1 <<< 63) = u / 2 ^ 63 % 2 * 2 ^ 63 := by
  have h := and_mid_mask u 1 63
  norm_num [Nat.shiftLeft_eq] at h ⊢
  convert h using 2

theorem and_mask7ff52 (u : Nat) : u &&& (0x7ff <<< 52) = u / 2 ^ 52 % 2 ^ 11 * 2 ^ 52 := by
  have h := and_mid_mask u 11 52
  norm_num [Nat.shiftLeft_eq] at h ⊢
  convert h using 2

theorem bytesToNat_u64ToBytes (n : Nat) (h : n < 2 ^ 64) : bytesToNat (u64ToBytes n) = n := by
  simp only [bytesToNat, u64ToBytes, List.foldl]
  omega

theorem u64ToBytes_length (n : Nat) : (u64ToBytes n).length = 8 := by
  simp [u64ToBytes]

theorem ljust8_length (bs : List Nat) (h : bs.length ≤ 8) : (ljust8 bs).length = 8 := by
  simp [ljust8]
  omega

theorem ljust8_of_length_eq (bs : List Nat) (h : bs.length = 8) : ljust8 bs = bs := by
  simp [ljust8, h]

theorem headD_ljust8 (bs : List Nat) : (ljust8 bs).headD 0 = bs.headD 0 := by
  cases bs <;> simp [ljust8]

theorem or_hidden_bit (f : Nat) (hf : f < 2 ^ 52) :
    (0x0010000000000000 : Nat) ||| f = 2 ^ 52 + f := by
  have h := or_mul_pow 1 f 52 hf
  norm_num at h
  convert h using 2

/-- Closed form of the encoder on a normal pattern whose unbiased
exponent lies in the representable range (`763 ≤ e ≤ 1271`, that is
`-260 ≤ e - 1023 ≤ 248`): the packed word has sign `s`, IBM exponent
byte `q = (e - 763) / 4` and 56-bit mantissa `(2^52 + f) * 2^r` with
`r = (e - 763) % 4`. -/
theorem encode_normal (s e f : Nat) (hs : s < 2) (he1 : 763 ≤ e) (he2 : e ≤ 1271)
    (hf : f < 2 ^ 52) :
    ieee_to_ibm (s * 2 ^ 63 + e * 2 ^ 52 + f) =
      .ok (u64ToBytes (s * 2 ^ 63 + (e - 763) / 4 * 2 ^ 56 +
        (2 ^ 52 + f) * 2 ^ ((e - 763) % 4))) := by
  have hexpBits : ieeeExpBits (s * 2 ^ 63 + e * 2 ^ 52 + f) = e := by
    unfold ieeeExpBits
    omega
  have hfracEq : ieeeFrac (s * 2 ^ 63 + e * 2 ^ 52 + f) = f := by
    unfold ieeeFrac
    omega
  have hnz : ¬ ieeeIsZero (s * 2 ^ 63 + e * 2 ^ 52 + f) := fun h => by
    have := h.1
    rw [hexpBits] at this
    omega
  have hnan : ¬ ieeeIsNaN (s * 2 ^ 63 + e * 2 ^ 52 + f) := fun h => by
    have := h.1
    rw [hexpBits] at this
    omega
  have hinf : ¬ ieeeIsInf (s * 2 ^ 63 + e * 2 ^ 52 + f) := fun h => by
    have := h.1
    rw [hexpBits] at this
    omega
  have hsign : (s * 2 ^ 63 + e * 2 ^ 52 + f) &&& 1 <<< 63 = s * 2 ^ 63 := by
    rw [and_bit63sl]
    omega
  have hexp : ((s * 2 ^ 63 + e * 2 ^ 52 + f) &&& 0x7ff <<< 52) >>> 52 = e := by
    rw [and_mask7ff52, Nat.shiftRight_eq_div_pow]
    omega
  have hmant : (s * 2 ^ 63 + e * 2 ^ 52 + f) &&& 0x000fffffffffffff = f := by
    rw [and_mask52]
    omega
  have hdm : 4 * (((e : Int) - 1023).ediv 4) + ((e : Int) - 1023).emod 4 = (e : Int) - 1023 :=
    Int.ediv_add_emod _ 4
  have hr0 : 0 ≤ ((e : Int) - 1023).emod 4 := Int.emod_nonneg _ (by norm_num)
  have hr4 : ((e : Int) - 1023).emod 4 < 4 := Int.emod_lt_of_pos _ (by norm_num)
  have hq : (((e : Int) - 1023).ediv 4 + 1 + 64).toNat = (e - 763) / 4 := by omega
  have hr : (((e : Int) - 1023).emod 4).toNat = (e - 763) % 4 := by omega
  simp only [ieee_to_ibm, if_neg hnz, if_neg hnan, if_neg hinf, hsign, hexp, hmant,
    Nat.shiftRight_eq_div_pow]
  rw [if_neg (by omega), if_neg (by omega), or_hidden_bit f hf, hq, hr]
  have harg : (s * 2 ^ 63 / 2 ^ 63) <<< 63 |||
      ((e - 763) / 4) <<< 56 ||| (2 ^ 52 + f) <<< ((e - 763) % 4) =
      s * 2 ^ 63 + (e - 763) / 4 * 2 ^ 56 + (2 ^ 52 + f) * 2 ^ ((e - 763) % 4) := by
    have hql : (e - 763) / 4 ≤ 127 := by omega
    have hrl : (e - 763) % 4 ≤ 3 := by omega
    have hm56 : (2 ^ 52 + f) * 2 ^ ((e - 763) % 4) < 2 ^ 56 := by
      have h1 : (2 ^ 52 + f) * 2 ^ ((e - 763) % 4) < 2 ^ 53 * 2 ^ ((e - 763) % 4) :=
        (Nat.mul_lt_mul_right (Nat.pos_pow_of_pos _ (by norm_num))).mpr (by omega)
      have h2 : (2 ^ 53 : Nat) * 2 ^ ((e - 763) % 4) ≤ 2 ^ 53 * 2 ^ 3 :=
        Nat.mul_le_mul_left _ (Nat.pow_le_pow_right (by norm_num) hrl)
      omega
    have hds : s * 2 ^ 63 / 2 ^ 63 = s := by omega
    rw [hds, Nat.shiftLeft_eq, Nat.shiftLeft_eq, Nat.shiftLeft_eq,
      show s * 2 ^ 63 = 2 ^ 63 * s by ring,
      or_mul_pow s ((e - 763) / 4 * 2 ^ 56) 63 (by omega),
      show 2 ^ 63 * s + (e - 763) / 4 * 2 ^ 56 = 2 ^ 56 * (2 ^ 7 * s + (e - 763) / 4) by ring,
      or_mul_pow _ _ 56 hm56]
  rw [harg]

/-- Closed form of the decoder on a packed IBM word with sign `s`,
exponent byte `q` and normalized 56-bit mantissa `(2^52 + f) * 2^r`
(`r < 4` leading zero bits): normalization undoes the shift `r` exactly
and rebases the exponent to `(q - 65) * 4 + r + 1023`. -/
theorem decode_packed (s q f r : Nat) (hs : s < 2) (hq : q ≤ 127) (hf : f < 2 ^ 52)
    (hr : r < 4) :
    ibm_to_ieee (u64ToBytes (s * 2 ^ 63 + q * 2 ^ 56 + (2 ^ 52 + f) * 2 ^ r)) =
      .ok (.val (s * 2 ^ 63 + (4 * q + r + 763) * 2 ^ 52 + f)) := by
  interval_cases r
  · set p : Nat := s * 2 ^ 63 + q * 2 ^ 56 + (2 ^ 52 + f) * 2 ^ 0 with hp
    have hp64 : p < 2 ^ 64 := by omega
    have hlj : ljust8 (u64ToBytes p) = u64ToBytes p :=
      ljust8_of_length_eq _ (u64ToBytes_length _)
    simp only [ibm_to_ieee, hlj, u64ToBytes_length, bytesToNat_u64ToBytes p hp64,
      ne_eq, not_true_eq_false, if_false, and_mask56, and_mask63, and_mask7f56,
      and_bit55, and_bit54, and_bit53, Nat.shiftRight_eq_div_pow]
    rw [if_neg (by omega : ¬ p % 2 ^ 56 = 0),
      if_neg (not_not_intro (by omega : p / 2 ^ 55 % 2 * 2 ^ 55 = 0)),
      if_neg (not_not_intro (by omega : p / 2 ^ 54 % 2 * 2 ^ 54 = 0)),
      if_neg (not_not_intro (by omega : p / 2 ^ 53 % 2 * 2 ^ 53 = 0)),
      show p % 2 ^ 56 / 2 ^ 0 = 2 ^ 52 + f from by omega,
      and_clear_bit52 f hf,
      show p / 2 ^ 56 % 2 ^ 7 * 2 ^ 56 / 2 ^ 56 = q from by omega,
      show p / 2 ^ 63 % 2 * 2 ^ 63 = 2 ^ 63 * s from by omega,
      show ((q : Int) - 65) * 4 + ((0 : Nat) : Int) + 1023 =
        ((4 * q + 0 + 763 : Nat) : Int) from by push_cast; ring,
      Int.toNat_natCast, Nat.shiftLeft_eq,
      or_mul_pow s ((4 * q + 0 + 763) * 2 ^ 52) 63 (by omega),
      show 2 ^ 63 * s + (4 * q + 0 + 763) * 2 ^ 52 =
        2 ^ 52 * (2 ^ 11 * s + (4 * q + 0 + 763)) from by ring,
      or_mul_pow _ f 52 hf,
      show 2 ^ 52 * (2 ^ 11 * s + (4 * q + 0 + 763)) + f =
        s * 2 ^ 63 + (4 * q + 0 + 763) * 2 ^ 52 + f from by ring]
  · set p : Nat := s * 2 ^ 63 + q * 2 ^ 56 + (2 ^ 52 + f) * 2 ^ 1 with hp
    have hp64 : p < 2 ^ 64 := by omega
    have hlj : ljust8 (u64ToBytes p) = u64ToBytes p :=
      ljust8_of_length_eq _ (u64ToBytes_length _)
    simp only [ibm_to_ieee, hlj, u64ToBytes_length, bytesToNat_u64ToBytes p hp64,
      ne_eq, not_true_eq_false, if_false, and_mask56, and_mask63, and_mask7f56,
      and_bit55, and_bit54, and_bit53, Nat.shiftRight_eq_div_pow]
    rw [if_neg (by omega : ¬ p % 2 ^ 56 = 0),
      if_neg (not_not_intro (by omega : p / 2 ^ 55 % 2 * 2 ^ 55 = 0)),
      if_neg (not_not_intro (by omega : p / 2 ^ 54 % 2 * 2 ^ 54 = 0)),
      if_pos (by omega : ¬ p / 2 ^ 53 % 2 * 2 ^ 53 = 0),
      show p % 2 ^ 56 / 2 ^ 1 = 2 ^ 52 + f from by omega,
      and_clear_bit52 f hf,
      show p / 2 ^ 56 % 2 ^ 7 * 2 ^ 56 / 2 ^ 56 = q from by omega,
      show p / 2 ^ 63 % 2 * 2 ^ 63 = 2 ^ 63 * s from by omega,
      show ((q : Int) - 65) * 4 + ((1 : Nat) : Int) + 1023 =
        ((4 * q + 1 + 763 : Nat) : Int) from by push_cast; ring,
      Int.toNat_natCast, Nat.shiftLeft_eq,
      or_mul_pow s ((4 * q + 1 + 763) * 2 ^ 52) 63 (by omega),
      show 2 ^ 63 * s + (4 * q + 1 + 763) * 2 ^ 52 =
        2 ^ 52 * (2 ^ 11 * s + (4 * q + 1 + 763)) from by ring,
      or_mul_pow _ f 52 hf,
      show 2 ^ 52 * (2 ^ 11 * s + (4 * q + 1 + 763)) + f =
        s * 2 ^ 63 + (4 * q + 1 + 763) * 2 ^ 52 + f from by ring]
  · set p : Nat := s * 2 ^ 63 + q * 2 ^ 56 + (2 ^ 52 + f) * 2 ^ 2 with hp
    have hp64 : p < 2 ^ 64 := by omega
    have hlj : ljust8 (u64ToBytes p) = u64ToBytes p :=
      ljust8_of_length_eq _ (u64ToBytes_length _)
    simp only [ibm_to_ieee, hlj, u64ToBytes_length, bytesToNat_u64ToBytes p hp64,
      ne_eq, not_true_eq_false, if_false, and_mask56, and_mask63, and_mask7f56,
      and_bit55, and_bit54, and_bit53, Nat.shiftRight_eq_div_pow]
    rw [if_neg (by omega : ¬ p % 2 ^ 56 = 0),
      if_neg (not_not_intro (by omega : p / 2 ^ 55 % 2 * 2 ^ 55 = 0)),
      if_pos (by omega : ¬ p / 2 ^ 54 % 2 * 2 ^ 54 = 0),
      show p % 2 ^ 56 / 2 ^ 2 = 2 ^ 52 + f from by omega,
      and_clear_bit52 f hf,
      show p / 2 ^ 56 % 2 ^ 7 * 2 ^ 56 / 2 ^ 56 = q from by omega,
      show p / 2 ^ 63 % 2 * 2 ^ 63 = 2 ^ 63 * s from by omega,
      show ((q : Int) - 65) * 4 + ((2 : Nat) : Int) + 1023 =
        ((4 * q + 2 + 763 : Nat) : Int) from by push_cast; ring,
      Int.toNat_natCast, Nat.shiftLeft_eq,
      or_mul_pow s ((4 * q + 2 + 763) * 2 ^ 52) 63 (by omega),
      show 2 ^ 63 * s + (4 * q + 2 + 763) * 2 ^ 52 =
        2 ^ 52 * (2 ^ 11 * s + (4 * q + 2 + 763)) from by ring,
      or_mul_pow _ f 52 hf,
      show 2 ^ 52 * (2 ^ 11 * s + (4 * q + 2 + 763)) + f =
        s * 2 ^ 63 + (4 * q + 2 + 763) * 2 ^ 52 + f from by ring]
  · set p : Nat := s * 2 ^ 63 + q * 2 ^ 56 + (2 ^ 52 + f) * 2 ^ 3 with hp
    have hp64 : p < 2 ^ 64 := by omega
    have hlj : ljust8 (u64ToBytes p) = u64ToBytes p :=
      ljust8_of_length_eq _ (u64ToBytes_length _)
    simp only [ibm_to_ieee, hlj, u64ToBytes_length, bytesToNat_u64ToBytes p hp64,
      ne_eq, not_true_eq_false, if_false, and_mask56, and_mask63, and_mask7f56,
      and_bit55, and_bit54, and_bit53, Nat.shiftRight_eq_div_pow]
    rw [if_neg (by omega : ¬ p % 2 ^ 56 = 0),
      if_pos (by omega : ¬ p / 2 ^ 55 % 2 * 2 ^ 55 = 0),
      show p % 2 ^ 56 / 2 ^ 3 = 2 ^ 52 + f from by omega,
      and_clear_bit52 f hf,
      show p / 2 ^ 56 % 2 ^ 7 * 2 ^ 56 / 2 ^ 56 = q from by omega,
      show p / 2 ^ 63 % 2 * 2 ^ 63 = 2 ^ 63 * s from by omega,
      show ((q : Int) - 65) * 4 + ((3 : Nat) : Int) + 1023 =
        ((4 * q + 3 + 763 : Nat) : Int) from by push_cast; ring,
      Int.toNat_natCast, Nat.shiftLeft_eq,
      or_mul_pow s ((4 * q + 3 + 763) * 2 ^ 52) 63 (by omega),
      show 2 ^ 63 * s + (4 * q + 3 + 763) * 2 ^ 52 =
        2 ^ 52 * (2 ^ 11 * s + (4 * q + 3 + 763)) from by ring,
      or_mul_pow _ f 52 hf,
      show 2 ^ 52 * (2 ^ 11 * s + (4 * q + 3 + 763)) + f =
        s * 2 ^ 63 + (4 * q + 3 + 763) * 2 ^ 52 + f from by ring]

theorem exp_compose_bound (E sh : Nat) (hE : E < 128) (hsh : sh ≤ 3) :
    (((E : Int) - 65) * 4 + sh + 1023).toNat * 2 ^ 52 < 2 ^ 64 := by
  omega

/-- When the padded 56-bit fraction is nonzero, the decoder always reaches
the final composition and returns a finite bit pattern below `2^64`. -/
theorem decode_ok_of_frac_ne_zero (bs : List Nat) (hlen : bs.length ≤ 8)
    (hfrac : bytesToNat (ljust8 bs) % 2 ^ 56 ≠ 0) :
    ∃ bits, bits < 2 ^ 64 ∧ ibm_to_ieee bs = .ok (.val bits) := by
  have h8 : (ljust8 bs).length = 8 := ljust8_length bs hlen
  simp only [ibm_to_ieee, h8, ne_eq, not_true_eq_false, if_false, and_mask56]
  rw [if_neg hfrac]
  refine ⟨_, ?_, rfl⟩
  refine Nat.or_lt_two_pow (Nat.or_lt_two_pow ?_ ?_) ?_
  · exact Nat.and_lt_two_pow _ (by norm_num)
  · rw [Nat.shiftLeft_eq]
    have hexp : (bytesToNat (ljust8 bs) &&& 0x7f00000000000000) >>> 56 < 128 := by
      rw [and_mask7f56, Nat.shiftRight_eq_div_pow]
      have := Nat.mod_lt (bytesToNat (ljust8 bs) / 2 ^ 56) (show 0 < 2 ^ 7 by norm_num)
      omega
    exact exp_compose_bound _ _ hexp (by split_ifs <;> omega)
  · exact Nat.and_lt_two_pow _ (by norm_num)

/-! ### Observation loop lemmas -/

theorem bindE_error {E A B : Type} (e : E) (f : A → Except E B) :
    (Except.error e : Except E A).bind f = .error e := rfl

theorem bindE_ok {E A B : Type} (a : A) (f : A → Except E B) :
    (Except.ok a : Except E A).bind f = f a := rfl

theorem mapE_error {E A B : Type} (e : E) (f : A → B) :
    (Except.error e : Except E A).map f = .error e := rfl

theorem mapE_ok {E A B : Type} (a : A) (f : A → B) :
    (Except.ok a : Except E A).map f = .ok (f a) := rfl

theorem flatten_length_of_rows (B : Nat) (rows : List (List Nat))
    (h : ∀ r ∈ rows, r.length = B) : rows.flatten.length = rows.length * B := by
  induction rows with
  | nil => simp
  | cons r rs ih =>
    simp only [List.flatten_cons, List.length_append, List.length_cons]
    rw [h r (by simp), ih (fun x hx => h x (by simp [hx]))]
    ring

theorem pySetEq_space (bs : List Nat) :
    pySetEq bs [32] = true ↔ bs ≠ [] ∧ ∀ b ∈ bs, b = 32 := by
  simp only [pySetEq, Bool.and_eq_true, List.all_eq_true]
  constructor
  · rintro ⟨h1, h2⟩
    have h32 : (32 : Nat) ∈ bs := by
      have := h2 32 (by simp)
      simpa using this
    refine ⟨?_, fun b hb => ?_⟩
    · rintro rfl
      simp at h32
    · have := h1 b hb
      simpa using this
  · rintro ⟨h1, h2⟩
    refine ⟨fun b hb => by simp [h2 b hb], fun b hb => ?_⟩
    have hb32 : b = 32 := by simpa using hb
    subst hb32
    cases bs with
    | nil => exact absurd rfl h1
    | cons c cs =>
      have := h2 c (by simp)
      simp [this]

theorem not_pySetEq_space (bs : List Nat) :
    (¬ pySetEq bs [32] = true) ↔ (bs = [] ∨ ¬ bs.all (fun b => b == 32) = true) := by
  rw [pySetEq_space]
  have hall : (bs.all (fun b => b == 32) = true) ↔ ∀ b ∈ bs, b = 32 := by
    simp [List.all_eq_true]
  constructor
  · intro h
    by_cases he : bs = []
    · exact Or.inl he
    · exact Or.inr (fun hb => h ⟨he, hall.mp hb⟩)
  · rintro (he | hb) ⟨h1, h2⟩
    · exact h1 he
    · exact hb (hall.mpr h2)

/-- The short-read branch (xport.py lines 330-336): a final block shorter
than `blocksize` terminates the loop; an empty or non-space block raises
`IncompleteRecord`, misaligned padding raises `InsufficientPadding`. -/
theorem obsLoop_short (vars : List Variable) (fuel count : Nat) (tail : List Nat)
    (htail : tail.length < blocksize vars) :
    obsLoop vars (fuel + 1) count tail =
      if tail = [] ∨ ¬ tail.all (fun b => b == 32) = true then .error .incompleteRecord
      else if count * blocksize vars % 80 = 0 ∨
          tail.length = 80 - count * blocksize vars % 80 then .ok []
      else .error .insufficientPadding := by
  have htake : tail.take (blocksize vars) = tail := List.take_of_length_le (le_of_lt htail)
  simp only [obsLoop, htake]
  rw [if_pos htail, if_congr (not_pySetEq_space tail) rfl rfl]
  by_cases hc : tail = [] ∨ ¬ tail.all (fun b => b == 32) = true
  · rw [if_pos hc, if_pos hc]
  · rw [if_neg hc, if_neg hc]
    have hc2 : (count * blocksize vars % 80 ≠ 0 ∧
        tail.length ≠ 80 - count * blocksize vars % 80) ↔
        ¬ (count * blocksize vars % 80 = 0 ∨
          tail.length = 80 - count * blocksize vars % 80) := by
      tauto
    rw [if_congr hc2 rfl rfl, ite_not]

/-- The all-spaces sentinel branch (xport.py lines 337-343): the rest of
the file is read; an empty or non-space remainder raises
`MultipleMembersUnsupported` (note: empty included, since
`set(b'') != set(b' ')`), misaligned totals raise `IncorrectPadding`. -/
theorem obsLoop_sent (vars : List Variable) (fuel count : Nat) (rest : List Nat) :
    obsLoop vars (fuel + 1) count (List.replicate (blocksize vars) 32 ++ rest) =
      if rest = [] ∨ ¬ rest.all (fun b => b == 32) = true then
        .error .multipleMembersUnsupported
      else if blocksize vars + rest.length ≠ 80 - count * blocksize vars % 80 then
        .error .incorrectPadding
      else .ok [] := by
  have htake : (List.replicate (blocksize vars) 32 ++ rest).take (blocksize vars) =
      List.replicate (blocksize vars) 32 := List.take_left' (by simp)
  have hdrop : (List.replicate (blocksize vars) 32 ++ rest).drop (blocksize vars) = rest :=
    List.drop_left' (by simp)
  simp only [obsLoop, htake, hdrop]
  rw [if_neg (by simp), if_true, if_congr (not_pySetEq_space rest) rfl rfl]

/-- The full-row branch (xport.py lines 344-347): a full, non-sentinel
block is parsed as one row and the loop continues on the remainder. -/
theorem obsLoop_cons_row (vars : List Variable) (fuel count : Nat) (row tail : List Nat)
    (hlen : row.length = blocksize vars)
    (hns : row ≠ List.replicate (blocksize vars) 32) :
    obsLoop vars (fuel + 1) count (row ++ tail) =
      match parseRow vars row with
      | .error e => .error e
      | .ok r => (obsLoop vars fuel (count + 1) tail).map (fun more => r :: more) := by
  have htake : (row ++ tail).take (blocksize vars) = row := List.take_left' hlen
  have hdrop : (row ++ tail).drop (blocksize vars) = tail := List.drop_left' hlen
  simp only [obsLoop, htake, hdrop]
  rw [if_neg (by omega), if_neg hns]

/-- Running the loop over a prefix of full non-sentinel rows parses the
rows in order and continues on the remaining input with the count
advanced. -/
theorem obsLoop_rows (vars : List Variable) (rows : List (List Nat)) :
    ∀ fuel count (tail : List Nat),
      (∀ r ∈ rows, r.length = blocksize vars ∧ r ≠ List.replicate (blocksize vars) 32) →
      obsLoop vars (rows.length + fuel + 1) count (rows.flatten ++ tail) =
        (parseRows vars rows).bind (fun out =>
          (obsLoop vars (fuel + 1) (count + rows.length) tail).map
            (fun more => out ++ more)) := by
  induction rows with
  | nil =>
    intro fuel count tail _
    simp only [List.length_nil, Nat.zero_add, List.flatten_nil, List.nil_append,
      parseRows, bindE_ok, Nat.add_zero]
    cases obsLoop vars (fuel + 1) count tail <;> simp [mapE_error, mapE_ok]
  | cons r rs ih =>
    intro fuel count tail hrows
    rw [List.length_cons, List.flatten_cons, List.append_assoc,
      show rs.length + 1 + fuel + 1 = (rs.length + fuel + 1) + 1 from by omega,
      obsLoop_cons_row vars (rs.length + fuel + 1) count r (rs.flatten ++ tail)
        (hrows r (by simp)).1 (hrows r (by simp)).2]
    simp only [parseRows]
    cases hpr : parseRow vars r with
    | error e => simp [bindE_error]
    | ok v =>
      rw [ih fuel (count + 1) tail (fun x hx => hrows x (by simp [hx]))]
      simp only [bindE_ok]
      cases hm : parseRows vars rs with
      | error e => simp [bindE_error, mapE_error]
      | ok out =>
        simp only [bindE_ok, mapE_ok]
        rw [show count + 1 + rs.length = count + (rs.length + 1) from by omega]
        cases obsLoop vars (fuel + 1) (count + (rs.length + 1)) tail <;>
          simp [mapE_error, mapE_ok]

/-- C4 (amended): whenever the observation stream ends with a read of
`n < B` bytes after a prefix of full non-sentinel rows, the reader fails
with `IncompleteRecord` if the final read is empty (`n = 0`) or contains
a non-space byte; otherwise it terminates cleanly exactly when
`count * B` is already a multiple of 80 or `n = 80 - (count * B) % 80`,
and fails with `InsufficientPadding` otherwise.  (The claim's clean
termination at `n = 0` is wrong: `set(b'') != set(b' ')`, so the source
raises `IncompleteRecord` there; and when `count * B % 80 = 0` any
all-space short tail is accepted.) -/
theorem c4_short_read_termination (vars : List Variable) (rows : List (List Nat))
    (tail : List Nat)
    (hrows : ∀ r ∈ rows, r.length = blocksize vars ∧ r ≠ List.replicate (blocksize vars) 32)
    (htail : tail.length < blocksize vars) :
    readObservations vars (rows.flatten ++ tail) =
      (parseRows vars rows).bind (fun out =>
        if tail = [] ∨ ¬ tail.all (fun b => b == 32) = true then .error .incompleteRecord
        else if rows.length * blocksize vars % 80 = 0 ∨
            tail.length = 80 - rows.length * blocksize vars % 80 then .ok out
        else .error .insufficientPadding) := by
  have hB : 1 ≤ blocksize vars := by omega
  have hflat : rows.flatten.length = rows.length * blocksize vars :=
    flatten_length_of_rows _ rows (fun r hr => (hrows r hr).1)
  have hmul : rows.length * (blocksize vars - 1) + rows.length =
      rows.length * blocksize vars := by
    conv_rhs => rw [show blocksize vars = (blocksize vars - 1) + 1 from by omega]
    rw [Nat.mul_succ]
  rw [readObservations,
    show (rows.flatten ++ tail).length + 1 =
      rows.length + (rows.length * (blocksize vars - 1) + tail.length) + 1 from by
        rw [List.length_append, hflat]
        omega,
    obsLoop_rows vars rows _ 0 tail hrows]
  cases hm : parseRows vars rows with
  | error e => rfl
  | ok out =>
    simp only [bindE_ok]
    rw [Nat.zero_add, obsLoop_short vars _ rows.length tail htail]
    split_ifs <;> simp [mapE_error, mapE_ok]

/-- C5 (amended): when, after a prefix of full non-sentinel rows, the
stream contains an all-space block of size `B` followed by the rest of
the file, the reader fails with `MultipleMembersUnsupported` if the rest
is empty or contains a non-space byte (note: a sentinel block ending
exactly at end-of-file is an error, since `set(b'') != set(b' ')`),
fails with `IncorrectPadding` if the rest is all spaces but
`B + |rest| ≠ 80 - (count * B) % 80`, and otherwise terminates cleanly
with exactly the prefix rows. -/
theorem c5_sentinel_termination (vars : List Variable) (rows : List (List Nat))
    (rest : List Nat) (hB : 0 < blocksize vars)
    (hrows : ∀ r ∈ rows, r.length = blocksize vars ∧ r ≠ List.replicate (blocksize vars) 32) :
    readObservations vars
        (rows.flatten ++ (List.replicate (blocksize vars) 32 ++ rest)) =
      (parseRows vars rows).bind (fun out =>
        if rest = [] ∨ ¬ rest.all (fun b => b == 32) = true then
          .error .multipleMembersUnsupported
        else if blocksize vars + rest.length ≠ 80 - rows.length * blocksize vars % 80 then
          .error .incorrectPadding
        else .ok out) := by
  have hflat : rows.flatten.length = rows.length * blocksize vars :=
    flatten_length_of_rows _ rows (fun r hr => (hrows r hr).1)
  obtain ⟨C, hBC⟩ : ∃ C, blocksize vars = C + 1 := ⟨blocksize vars - 1, by omega⟩
  have hfuel : (rows.flatten ++ (List.replicate (blocksize vars) 32 ++ rest)).length + 1 =
      rows.length + (rows.length * C + C + rest.length + 1) + 1 := by
    rw [hBC] at hflat
    rw [hBC]
    simp only [List.length_append, List.length_replicate, hflat, Nat.mul_add, mul_one]
    omega
  rw [readObservations, hfuel,
    obsLoop_rows vars rows _ 0 (List.replicate (blocksize vars) 32 ++ rest) hrows]
  cases hm : parseRows vars rows with
  | error e => rfl
  | ok out =>
    simp only [bindE_ok]
    rw [Nat.zero_add, obsLoop_sent vars _ rows.length rest]
    split_ifs <;> simp [mapE_error, mapE_ok]

/-- Counterexample to C4 as stated: on a one-variable (character,
width 8) schema with an empty observation section, the first read
returns `n = 0 < B` bytes; the claim says this terminates cleanly, but
the source's `set(b'') != set(b' ')` check raises `IncompleteRecord`. -/
theorem c4_empty_read_counterexample :
    readObservations [⟨[], false, 0, 8⟩] [] = .error .incompleteRecord := by
  decide

/-- Witness for C4 on a concrete file: one character variable of width
4, one data row `"ABCD"`, then a 2-byte all-space tail; `count * B = 4`,
`80 - 4 % 80 = 76 ≠ 2`, so the reader fails with
`InsufficientPadding`. -/
theorem c4_short_read_termination_witness :
    readObservations [⟨[65], false, 0, 4⟩] ([[65, 66, 67, 68]].flatten ++ [32, 32]) =
      (parseRows [⟨[65], false, 0, 4⟩] [[65, 66, 67, 68]]).bind (fun out =>
        if ([32, 32] : List Nat) = [] ∨
            ¬ ([32, 32] : List Nat).all (fun b => b == 32) = true then
          .error .incompleteRecord
        else if [[65, 66, 67, 68]].length * blocksize [⟨[65], false, 0, 4⟩] % 80 = 0 ∨
            ([32, 32] : List Nat).length =
              80 - [[65, 66, 67, 68]].length * blocksize [⟨[65], false, 0, 4⟩] % 80 then
          .ok out
        else .error .insufficientPadding) :=
  c4_short_read_termination [⟨[65], false, 0, 4⟩] [[65, 66, 67, 68]] [32, 32]
    (by decide) (by decide)

/-- Counterexample to C5 as stated: a file whose observation section is
exactly one all-space sentinel block ending at the 80-byte boundary
(count = 0 rows, B = 80, no remaining bytes, so `B + 0 = 80 - 0`
satisfies the claim's premise) does not decode cleanly to 0 rows: the
source's `set(b'') != set(b' ')` check on the empty remainder raises
`MultipleMembersUnsupported`. -/
theorem c5_sentinel_at_eof_counterexample :
    readObservations [⟨[], false, 0, 80⟩] (List.replicate 80 32) =
      .error .multipleMembersUnsupported := by
  decide

/-- Witness for C5 on a concrete file: one character variable of width
4, one data row `"ABCD"`, the 4-byte sentinel, then 72 spaces;
`4 + 72 = 76 = 80 - 4 % 80`, so the reader emits exactly the one row. -/
theorem c5_sentinel_termination_witness :
    readObservations [⟨[65], false, 0, 4⟩]
        ([[65, 66, 67, 68]].flatten ++
          (List.replicate (blocksize [⟨[65], false, 0, 4⟩]) 32 ++ List.replicate 72 32)) =
      (parseRows [⟨[65], false, 0, 4⟩] [[65, 66, 67, 68]]).bind (fun out =>
        if List.replicate 72 32 = ([] : List Nat) ∨
            ¬ (List.replicate 72 32).all (fun b => b == 32) = true then
          .error .multipleMembersUnsupported
        else if blocksize [⟨[65], false, 0, 4⟩] + (List.replicate 72 32).length ≠
            80 - [[65, 66, 67, 68]].length * blocksize [⟨[65], false, 0, 4⟩] % 80 then
          .error .incorrectPadding
        else .ok out) :=
  c5_sentinel_termination [⟨[65], false, 0, 4⟩] [[65, 66, 67, 68]]
    (List.replicate 72 32) (by decide) (by decide)

theorem abs_ieeeVal_normal (u : Nat) (he : ieeeExpBits u ≠ 0) :
    |ieeeVal u| = ((2 ^ 52 + ieeeFrac u : ℚ) * 2 ^ ieeeExpBits u) / 2 ^ 1075 := by
  simp only [ieeeVal]
  rw [if_neg he]
  split_ifs with hs
  · rw [neg_one_mul, neg_div, abs_neg, abs_of_nonneg (by positivity)]
  · rw [one_mul, abs_of_nonneg (by positivity)]

theorem abs_ieeeVal_subnormal (u : Nat) (he : ieeeExpBits u = 0) :
    |ieeeVal u| = (ieeeFrac u : ℚ) / 2 ^ 1074 := by
  simp only [ieeeVal]
  rw [if_pos he]
  split_ifs with hs
  · rw [neg_one_mul, neg_div, abs_neg, abs_of_nonneg (by positivity)]
  · rw [one_mul, abs_of_nonneg (by positivity)]

/-- A pattern whose absolute value lies in `[2^(-260), 2^249)` is normal
with biased exponent in `[763, 1271]`, i.e. unbiased exponent in
`[-260, 248]`. -/
theorem expBits_range_of_val (u : Nat)
    (hlo : (2 : ℚ) ^ (-260 : ℤ) ≤ |ieeeVal u|) (hhi : |ieeeVal u| < 2 ^ 249) :
    763 ≤ ieeeExpBits u ∧ ieeeExpBits u ≤ 1271 := by
  have hf : ieeeFrac u < 2 ^ 52 := by
    unfold ieeeFrac
    omega
  have hneg : (2 : ℚ) ^ (-260 : ℤ) = ((2 : ℚ) ^ (260 : Nat))⁻¹ := by
    rw [zpow_neg]
    norm_num
  by_cases he : ieeeExpBits u = 0
  · exfalso
    rw [abs_ieeeVal_subnormal u he, hneg, le_div_iff (by positivity)] at hlo
    have h2 : ((2 : ℚ) ^ (260 : Nat))⁻¹ * 2 ^ 1074 = 2 ^ 814 := by
      have hp : (2 : ℚ) ^ (1074 : Nat) = 2 ^ (260 : Nat) * 2 ^ (814 : Nat) := by
        rw [← pow_add]
      rw [hp, inv_mul_cancel_left₀ (by positivity)]
    rw [h2] at hlo
    have hfq : (ieeeFrac u : ℚ) < 2 ^ 52 := by exact_mod_cast hf
    have : (2 : ℚ) ^ (52 : Nat) < 2 ^ (814 : Nat) :=
      (pow_lt_pow_iff_right₀ (by norm_num : (1 : ℚ) < 2)).mpr (by norm_num)
    linarith
  · rw [abs_ieeeVal_normal u he] at hlo hhi
    have hlo' : (2 : ℚ) ^ (815 : Nat) ≤ (2 ^ 52 + ieeeFrac u : ℚ) * 2 ^ ieeeExpBits u := by
      rw [hneg, le_div_iff (by positivity)] at hlo
      have h2 : ((2 : ℚ) ^ (260 : Nat))⁻¹ * 2 ^ 1075 = 2 ^ 815 := by
        have hp : (2 : ℚ) ^ (1075 : Nat) = 2 ^ (260 : Nat) * 2 ^ (815 : Nat) := by
          rw [← pow_add]
        rw [hp, inv_mul_cancel_left₀ (by positivity)]
      rw [h2] at hlo
      exact hlo
    have hhi' : (2 ^ 52 + ieeeFrac u : ℚ) * 2 ^ ieeeExpBits u < 2 ^ (1324 : Nat) := by
      rw [div_lt_iff (by positivity)] at hhi
      have h2 : (2 : ℚ) ^ (249 : Nat) * 2 ^ 1075 = 2 ^ 1324 := by
        rw [← pow_add]
      rw [h2] at hhi
      exact hhi
    have hfq : (ieeeFrac u : ℚ) < 2 ^ 52 := by exact_mod_cast hf
    have hepos : (0 : ℚ) < 2 ^ ieeeExpBits u := by positivity
    constructor
    · by_contra hlt
      push_neg at hlt
      have hub : (2 ^ 52 + ieeeFrac u : ℚ) * 2 ^ ieeeExpBits u <
          2 ^ 53 * 2 ^ ieeeExpBits u := by
        have h1 : (2 ^ 52 + ieeeFrac u : ℚ) < 2 ^ 53 := by
          have h2 : (2 : ℚ) ^ (53 : Nat) = 2 ^ (52 : Nat) + 2 ^ (52 : Nat) := by norm_num
          linarith
        exact mul_lt_mul_of_pos_right h1 hepos
      rw [← pow_add] at hub
      have hcmp : (2 : ℚ) ^ (815 : Nat) < 2 ^ (53 + ieeeExpBits u) :=
        lt_of_le_of_lt hlo' hub
      have := (pow_lt_pow_iff_right₀ (by norm_num : (1 : ℚ) < 2)).mp hcmp
      omega
    · have hlb : (2 : ℚ) ^ (52 + ieeeExpBits u) ≤
          (2 ^ 52 + ieeeFrac u : ℚ) * 2 ^ ieeeExpBits u := by
        rw [pow_add]
        exact mul_le_mul_of_nonneg_right (le_add_of_nonneg_right (Nat.cast_nonneg _))
          (le_of_lt hepos)
      have hcmp : (2 : ℚ) ^ (52 + ieeeExpBits u) < 2 ^ (1324 : Nat) :=
        lt_of_le_of_lt hlb hhi'
      have := (pow_lt_pow_iff_right₀ (by norm_num : (1 : ℚ) < 2)).mp hcmp
      omega

/-- C1 (amended): for every finite IEEE binary64 pattern whose absolute
value lies in `[2^(-260), 2^249)` (the range the encoder accepts:
unbiased exponent in `[-260, 248]`), the round-trip is exact:
`ibm_to_ieee (ieee_to_ibm x) = x`, bit for bit, with no mantissa loss.
The claim's stated upper bound `2^(4*248)` is too large; see the
counterexample at `2^300`. -/
theorem c1_roundtrip_exact (u : Nat) (hu : u < 2 ^ 64) (hfin : ieeeExpBits u ≠ 2047)
    (hlo : (2 : ℚ) ^ (-260 : ℤ) ≤ |ieeeVal u|) (hhi : |ieeeVal u| < 2 ^ 249) :
    ∃ bs, ieee_to_ibm u = .ok bs ∧ ibm_to_ieee bs = .ok (.val u) := by
  obtain ⟨he1, he2⟩ := expBits_range_of_val u hlo hhi
  have hs2 : u / 2 ^ 63 < 2 := by omega
  have hf2 : ieeeFrac u < 2 ^ 52 := by
    unfold ieeeFrac
    omega
  have hq4 : (ieeeExpBits u - 763) / 4 ≤ 127 := by omega
  have hr4 : (ieeeExpBits u - 763) % 4 < 4 := by omega
  have hdecomp : u / 2 ^ 63 * 2 ^ 63 + ieeeExpBits u * 2 ^ 52 + ieeeFrac u = u := by
    unfold ieeeExpBits ieeeFrac
    omega
  refine ⟨u64ToBytes (u / 2 ^ 63 * 2 ^ 63 + (ieeeExpBits u - 763) / 4 * 2 ^ 56 +
    (2 ^ 52 + ieeeFrac u) * 2 ^ ((ieeeExpBits u - 763) % 4)), ?_, ?_⟩
  · conv_lhs => rw [← hdecomp]
    exact encode_normal _ _ _ hs2 he1 he2 hf2
  · rw [decode_packed _ _ _ _ hs2 hq4 hf2 hr4,
      show 4 * ((ieeeExpBits u - 763) / 4) + (ieeeExpBits u - 763) % 4 + 763 = ieeeExpBits u
        from by omega,
      hdecomp]

/-- Witness for C1 at the pattern of `1.0`. -/
theorem c1_roundtrip_exact_witness :
    ∃ bs, ieee_to_ibm 0x3FF0000000000000 = .ok bs ∧
      ibm_to_ieee bs = .ok (.val 0x3FF0000000000000) :=
  c1_roundtrip_exact 0x3FF0000000000000 (by norm_num) (by decide)
    (by
      rw [show ieeeVal 0x3FF0000000000000 = 1 from by
            norm_num [ieeeVal, ieeeExpBits, ieeeFrac],
        abs_one]
      exact zpow_le_one_of_nonpos₀ (by norm_num) (by norm_num))
    (by
      rw [show ieeeVal 0x3FF0000000000000 = 1 from by
            norm_num [ieeeVal, ieeeExpBits, ieeeFrac],
        abs_one]
      norm_num)

set_option exponentiation.threshold 2000 in
/-- Counterexample to C1 as stated: `x = 2^300` (pattern `1323 * 2^52`)
is finite, and its absolute value lies in the claim's stated range
`[2^(-260), 2^(4*248))`, yet the encoder fails with `Overflow` (its
unbiased exponent 300 exceeds 248), so no round-trip value exists. -/
theorem c1_range_counterexample :
    ieeeExpBits (1323 * 2 ^ 52) ≠ 2047 ∧
    (2 : ℚ) ^ (-260 : ℤ) ≤ |ieeeVal (1323 * 2 ^ 52)| ∧
    |ieeeVal (1323 * 2 ^ 52)| < 2 ^ (4 * 248) ∧
    ieee_to_ibm (1323 * 2 ^ 52) = .error .overflow := by
  have hv : ieeeVal (1323 * 2 ^ 52) = 2 ^ 300 := by
    norm_num [ieeeVal, ieeeExpBits, ieeeFrac]
  refine ⟨by decide, ?_, ?_, by decide⟩
  · rw [hv, abs_of_nonneg (by positivity)]
    calc (2 : ℚ) ^ (-260 : ℤ) ≤ 1 := zpow_le_one_of_nonpos₀ (by norm_num) (by norm_num)
    _ ≤ 2 ^ 300 := by norm_num
  · rw [hv, abs_of_nonneg (by positivity)]
    norm_num

/-- C2: for a zero 56-bit fraction (after padding), the decoder returns
`+0.0` when the first byte is `0x00`, NaN when it is `'_'`, `'.'` or
`'A'`-`'Z'`, and fails with `InvalidMissingValue` otherwise; a nonzero
fraction never produces that error, so these are the only conditions
raising it. -/
theorem c2_missing_value_classification (bs : List Nat) (hlen : bs.length ≤ 8) :
    (bytesToNat (ljust8 bs) % 2 ^ 56 = 0 →
      ((bs.headD 0 = 0 → ibm_to_ieee bs = .ok (.val 0)) ∧
       (bs.headD 0 ∈ missingValueBytes → ibm_to_ieee bs = .ok .nan) ∧
       (bs.headD 0 ≠ 0 → bs.headD 0 ∉ missingValueBytes →
         ibm_to_ieee bs = .error .invalidMissingValue))) ∧
    (bytesToNat (ljust8 bs) % 2 ^ 56 ≠ 0 →
      ibm_to_ieee bs ≠ .error .invalidMissingValue) := by
  have h8 : (ljust8 bs).length = 8 := ljust8_length bs hlen
  constructor
  · intro hfrac
    refine ⟨fun h0 => ?_, fun hmem => ?_, fun h0 hmem => ?_⟩ <;>
      simp only [ibm_to_ieee, h8, ne_eq, not_true_eq_false, if_false, and_mask56] <;>
      rw [if_pos hfrac] <;> rw [headD_ljust8]
    · rw [if_pos h0]
    · have h0 : bs.headD 0 ≠ 0 := by
        intro h
        rw [h] at hmem
        exact absurd hmem (by decide)
      rw [if_neg h0, if_pos hmem]
    · rw [if_neg h0, if_neg hmem]
  · intro hfrac
    obtain ⟨bits, _, heq⟩ := decode_ok_of_frac_ne_zero bs hlen hfrac
    simp [heq]

/-- Witness for C2 at the inputs `[0x41]` (first byte `'A'`, zero
fraction, decodes to NaN) and `[0x41, 0x10]` (nonzero fraction). -/
theorem c2_missing_value_classification_witness :
    ibm_to_ieee [0x41] = .ok .nan ∧
    ibm_to_ieee [0x41, 0x10] ≠ .error .invalidMissingValue :=
  ⟨((c2_missing_value_classification [0x41] (by decide)).1 (by decide)).2.1 (by decide),
   (c2_missing_value_classification [0x41, 0x10] (by decide)).2 (by decide)⟩

/-- C9: `ibm_to_ieee` is total on byte strings of length at most 8: the
empty input decodes to `+0.0`, and any input whose padded fraction is
nonzero decodes without error to a finite bit pattern; the zero-fraction
invalid-first-byte branch is the only error path. -/
theorem c9_decode_total_on_short_inputs :
    ibm_to_ieee [] = .ok (.val 0) ∧
    ∀ bs : List Nat, bs.length ≤ 8 → bytesToNat (ljust8 bs) % 2 ^ 56 ≠ 0 →
      ∃ bits, bits < 2 ^ 64 ∧ ibm_to_ieee bs = .ok (.val bits) :=
  ⟨by decide, fun bs h1 h2 => decode_ok_of_frac_ne_zero bs h1 h2⟩

/-- Witness for C9 at the 2-byte input `[0x41, 0x10]` (IBM 1.0). -/
theorem c9_decode_total_on_short_inputs_witness :
    ∃ bits, bits < 2 ^ 64 ∧ ibm_to_ieee [0x41, 0x10] = .ok (.val bits) :=
  c9_decode_total_on_short_inputs.2 [0x41, 0x10] (by decide) (by decide)

/-- C3: for a finite, non-zero, non-NaN pattern, encoding fails with
`Overflow` exactly when the unbiased exponent `E = e - 1023` exceeds 248,
fails with `Underflow` exactly when `E` is below -260, and for `E` in
`[-260, 248]` returns 8 bytes without error. -/
theorem c3_encode_range_errors (u : Nat) (hfin : ieeeExpBits u ≠ 2047)
    (hnz : ¬ ieeeIsZero u) :
    (ieee_to_ibm u = .error .overflow ↔ 248 < (ieeeExpBits u : Int) - 1023) ∧
    (ieee_to_ibm u = .error .underflow ↔ (ieeeExpBits u : Int) - 1023 < -260) ∧
    (-260 ≤ (ieeeExpBits u : Int) - 1023 → (ieeeExpBits u : Int) - 1023 ≤ 248 →
      ∃ bs, ieee_to_ibm u = .ok bs ∧ bs.length = 8) := by
  have hexp : (u &&& (0x7ff <<< 52)) >>> 52 = ieeeExpBits u := by
    rw [and_mask7ff52, Nat.shiftRight_eq_div_pow, ieeeExpBits]
    omega
  have hnan : ¬ ieeeIsNaN u := fun h => hfin h.1
  have hinf : ¬ ieeeIsInf u := fun h => hfin h.1
  simp only [ieee_to_ibm, if_neg hnz, if_neg hnan, if_neg hinf, hexp]
  refine ⟨?_, ?_, fun h1 h2 => ?_⟩
  · constructor
    · intro h
      by_contra hlt
      rw [if_neg hlt] at h
      split_ifs at h <;> simp at h
    · intro h
      rw [if_pos h]
  · constructor
    · intro h
      rcases lt_or_le 248 ((ieeeExpBits u : Int) - 1023) with hov | hov
      · rw [if_pos hov] at h
        simp at h
      · rw [if_neg (not_lt.mpr hov)] at h
        by_contra hun
        rw [if_neg hun] at h
        simp at h
    · intro h
      rw [if_neg (by omega), if_pos h]
  · rw [if_neg (by omega), if_neg (by omega)]
    exact ⟨_, rfl, u64ToBytes_length _⟩

/-- Witness for C3 at the pattern of 1.0 (`E = 0`, inside the range). -/
theorem c3_encode_range_errors_witness :
    ((ieee_to_ibm 0x3FF0000000000000 = .error .overflow ↔
        248 < (ieeeExpBits 0x3FF0000000000000 : Int) - 1023) ∧
      (ieee_to_ibm 0x3FF0000000000000 = .error .underflow ↔
        (ieeeExpBits 0x3FF0000000000000 : Int) - 1023 < -260) ∧
      (-260 ≤ (ieeeExpBits 0x3FF0000000000000 : Int) - 1023 →
        (ieeeExpBits 0x3FF0000000000000 : Int) - 1023 ≤ 248 →
        ∃ bs, ieee_to_ibm 0x3FF0000000000000 = .ok bs ∧ bs.length = 8)) :=
  c3_encode_range_errors 0x3FF0000000000000 (by decide) (by decide)

/-- C6: `ieee_to_ibm` maps 0.0 to eight zero bytes, NaN to the byte `'_'`
followed by seven zero bytes, and fails with `InfinityUnsupported` on
positive and negative infinity. -/
theorem c6_encode_special_values :
    (∀ u, ieeeIsZero u → ieee_to_ibm u = .ok (List.replicate 8 0)) ∧
    (∀ u, ieeeIsNaN u → ieee_to_ibm u = .ok (0x5F :: List.replicate 7 0)) ∧
    (∀ u, ieeeIsInf u → ieee_to_ibm u = .error .infinityUnsupported) := by
  refine ⟨fun u h => ?_, fun u h => ?_, fun u h => ?_⟩
  · rw [ieee_to_ibm, if_pos h]
  · obtain ⟨he, hf⟩ := h
    rw [ieee_to_ibm, if_neg (fun hz => by have := hz.1; omega), if_pos ⟨he, hf⟩]
  · obtain ⟨he, hf⟩ := h
    rw [ieee_to_ibm, if_neg (fun hz => by have := hz.1; omega),
      if_neg (fun hn => hn.2 hf), if_pos ⟨he, hf⟩]

/-- Witness for C6 at the concrete patterns `+0.0` (0), a quiet NaN
(`0x7FF8000000000000`) and `+inf` (`0x7FF0000000000000`). -/
theorem c6_encode_special_values_witness :
    ieee_to_ibm 0 = .ok (List.replicate 8 0) ∧
    ieee_to_ibm 0x7FF8000000000000 = .ok (0x5F :: List.replicate 7 0) ∧
    ieee_to_ibm 0x7FF0000000000000 = .error .infinityUnsupported :=
  ⟨c6_encode_special_values.1 0 (by decide),
   c6_encode_special_values.2.1 0x7FF8000000000000 (by decide),
   c6_encode_special_values.2.2 0x7FF0000000000000 (by decide)⟩

/-- C10: encoding `-0.0` (bit pattern `0x8000000000000000`) yields eight
zero bytes, identical to encoding `+0.0`; the sign of negative zero is
discarded. -/
theorem c10_negative_zero_encodes_as_zero :
    ieee_to_ibm 0x8000000000000000 = .ok (List.replicate 8 0) ∧
    ieee_to_ibm 0 = .ok (List.replicate 8 0) := by
  decide

set_option exponentiation.threshold 1200 in
/-- Counterexample to C7 as stated: decoding `0x46_1F_FF_FF_FF_FF_FF_FF`
yields the pattern `0x413FFFFFFFFFFFFF`, whose value is
`2097151.99999999976...` = `(2^53 - 1) * 16^6 / 2^56`, which is NOT the
claimed `(2^56 - 1) * 16^5 / 2^56` (that number is `1048575.999...`). -/
theorem c7_formula_counterexample :
    ibm_to_ieee [0x46, 0x1F, 0xFF, 0xFF, 0xFF, 0xFF, 0xFF, 0xFF] =
      .ok (.val 0x413FFFFFFFFFFFFF) ∧
    ieeeVal 0x413FFFFFFFFFFFFF ≠ ((2 ^ 56 - 1) * 16 ^ 5 : ℚ) / 2 ^ 56 := by
  refine ⟨by decide, ?_⟩
  norm_num [ieeeVal, ieeeExpBits, ieeeFrac]

set_option exponentiation.threshold 1200 in
/-- C7 (amended): the specific codec test vectors, with the value of the
third decode vector corrected to `(2^53 - 1) * 16^6 / 2^56`
(= `2097151.999999999767...`): decoding `0x41_10_..` gives `1.0`,
`0xC1_10_..` gives `-1.0`, `0x46_1F_FF..FF` gives that value, and encoding
`1.0` / `-1.0` gives `0x41_10_..` / `0xC1_10_..` back. -/
theorem c7_specific_vectors :
    ibm_to_ieee [0x41, 0x10, 0, 0, 0, 0, 0, 0] = .ok (.val 0x3FF0000000000000) ∧
    ieeeVal 0x3FF0000000000000 = 1 ∧
    ibm_to_ieee [0xC1, 0x10, 0, 0, 0, 0, 0, 0] = .ok (.val 0xBFF0000000000000) ∧
    ieeeVal 0xBFF0000000000000 = -1 ∧
    ibm_to_ieee [0x46, 0x1F, 0xFF, 0xFF, 0xFF, 0xFF, 0xFF, 0xFF] =
      .ok (.val 0x413FFFFFFFFFFFFF) ∧
    ieeeVal 0x413FFFFFFFFFFFFF = ((2 ^ 53 - 1) * 16 ^ 6 : ℚ) / 2 ^ 56 ∧
    ieee_to_ibm 0x3FF0000000000000 = .ok [0x41, 0x10, 0, 0, 0, 0, 0, 0] ∧
    ieee_to_ibm 0xBFF0000000000000 = .ok [0xC1, 0x10, 0, 0, 0, 0, 0, 0] := by
  refine ⟨by decide, ?_, by decide, ?_, by decide, ?_, by decide, by decide⟩ <;>
    norm_num [ieeeVal, ieeeExpBits, ieeeFrac]

/-- C8 (amended): namestr-record numeric-width validation, for records
whose 8 name bytes are ASCII.  A numeric record (type field 1) with
length outside `[2, 8]` fails with `UnsupportedNumericWidth`; numeric
records with length in `[2, 8]` and character records (type ≠ 1) of any
length are accepted.  (Unamended, the claim is false: the name is
decoded as ASCII before the width check, so a record with a non-ASCII
name byte fails with a `UnicodeDecodeError`-driven `TypeError` instead
-- see the counterexample.) -/
theorem c8_numeric_width_validation (size : Nat) (raw : List Nat)
    (hsize : size = 140 ∨ size = 136) (hlen : raw.length = size)
    (hname : ∀ b ∈ (raw.drop 8).take 8, b < 128) :
    (int16be (raw.getD 0 0) (raw.getD 1 0) = 1 ∧
        (int16be (raw.getD 4 0) (raw.getD 5 0) < 2 ∨
          8 < int16be (raw.getD 4 0) (raw.getD 5 0)) →
      parseNamestrRecord size raw = .error .unsupportedNumericWidth) ∧
    (int16be (raw.getD 0 0) (raw.getD 1 0) = 1 ∧
        2 ≤ int16be (raw.getD 4 0) (raw.getD 5 0) ∧
        int16be (raw.getD 4 0) (raw.getD 5 0) ≤ 8 →
      ∃ v, parseNamestrRecord size raw = .ok v ∧ v.numeric = true ∧
        v.size = int16be (raw.getD 4 0) (raw.getD 5 0)) ∧
    (int16be (raw.getD 0 0) (raw.getD 1 0) ≠ 1 →
      ∃ v, parseNamestrRecord size raw = .ok v ∧ v.numeric = false) := by
  have h1 : ¬ (size ≠ 140 ∧ size ≠ 136) := by
    rcases hsize with h | h <;> simp [h]
  have h2 : ¬ (raw.length ≠ size) := by omega
  have h3 : ¬ ((raw.drop 8).take 8).any (fun b => 128 ≤ b) = true := by
    simp only [List.any_eq_true, not_exists, not_and]
    intro b hb
    have := hname b hb
    simp only [decide_eq_true_eq]
    omega
  simp only [parseNamestrRecord, if_neg h1, if_neg h2, if_neg h3]
  refine ⟨fun h => ?_, fun h => ?_, fun ht => ?_⟩
  · obtain ⟨ht, hw⟩ := h
    rw [if_pos ⟨by simp only [beq_iff_eq]; exact ht, hw⟩]
  · obtain ⟨ht, hw1, hw2⟩ := h
    rw [if_neg (fun hc => by
      obtain ⟨_, hw⟩ := hc
      omega)]
    exact ⟨_, rfl, by simp only [beq_iff_eq]; exact ht, rfl⟩
  · rw [if_neg (fun hc => by
      obtain ⟨hb, _⟩ := hc
      rw [beq_iff_eq] at hb
      exact ht hb)]
    exact ⟨_, rfl, by simp only [beq_eq_false_iff_ne]; exact ht⟩

set_option maxRecDepth 8000 in
/-- Witness for C8: a 140-byte record declaring a numeric variable of
length 8 with an all-zero (ASCII) name parses successfully. -/
theorem c8_numeric_width_validation_witness :
    ∃ v, parseNamestrRecord 140 ([0, 1, 0, 0, 0, 8, 0, 0] ++ List.replicate 132 0) = .ok v ∧
      v.numeric = true ∧
      v.size = int16be (([0, 1, 0, 0, 0, 8, 0, 0] ++ List.replicate 132 0).getD 4 0)
        (([0, 1, 0, 0, 0, 8, 0, 0] ++ List.replicate 132 0).getD 5 0) :=
  (c8_numeric_width_validation 140 ([0, 1, 0, 0, 0, 8, 0, 0] ++ List.replicate 132 0)
    (Or.inl rfl) (by decide) (by decide)).2.1 (by decide)

set_option maxRecDepth 8000 in
/-- Counterexample to C8 as stated: a 140-byte record declaring a
numeric variable (type = 1) of invalid length 1 whose name starts with
the non-ASCII byte `0xFF` does not fail with
`UnsupportedNumericWidth`; `name.decode('ascii')` raises first, so the
record parse fails with the `UnicodeDecodeError`-driven error. -/
theorem c8_nonascii_name_counterexample :
    int16be (([0, 1, 0, 0, 0, 1, 0, 0] ++ ([255] ++ List.replicate 131 0)).getD 0 0)
        (([0, 1, 0, 0, 0, 1, 0, 0] ++ ([255] ++ List.replicate 131 0)).getD 1 0) = 1 ∧
    int16be (([0, 1, 0, 0, 0, 1, 0, 0] ++ ([255] ++ List.replicate 131 0)).getD 4 0)
        (([0, 1, 0, 0, 0, 1, 0, 0] ++ ([255] ++ List.replicate 131 0)).getD 5 0) = 1 ∧
    parseNamestrRecord 140 ([0, 1, 0, 0, 0, 1, 0, 0] ++ ([255] ++ List.replicate 131 0)) =
      .error .unicodeDecodeError ∧
    parseNamestrRecord 140 ([0, 1, 0, 0, 0, 1, 0, 0] ++ ([255] ++ List.replicate 131 0)) ≠
      .error .unsupportedNumericWidth := by
  decide

end Xport
